import Mathlib

/-!
Verification development for the TruArc disc flight physics engine
(`src/utils/flightPhysics.js`), shallowly embedded over exact rationals.

JavaScript numbers are IEEE doubles; the claims checked here are structural
and algebraic (loop shape, guard branches, symmetry, index bookkeeping), so
we embed the arithmetic over `ℚ` and abstract the transcendental `Math`
primitives (`Math.PI`, `Math.sqrt`, `Math.sin`, `Math.cos`, `Math.atan2`)
as an arbitrary record `MathOps` of rational-valued functions: every theorem
below is proved for every interpretation of those primitives.

IEEE semantics is observable in two places, and both are modelled
faithfully where a claim depends on them:

* `smoothBezierCurve` divides by `segments - 1`: in JavaScript a zero
  denominator with zero numerator yields `NaN`, the `NaN` array index reads
  `undefined`, and the subsequent property access throws a TypeError.  We
  model that failure mode with `Option`: `jsDiv` returns `none` on a zero
  denominator and `jsIndex` returns `none` out of bounds, so a `none`
  result of the embedded `smoothBezierCurve` corresponds to the JavaScript
  call throwing.

* The integration loop's time accumulator `state.t` is a binary64 double
  advanced by `t + 0.01` each step.  Because `0.01` is not a dyadic
  rational, the accumulated double after 1200 steps is
  `11.999999999999789 < 12`, so the `while (state.t < maxTime)` loop runs a
  1201st step and ends at `t = 12.009999999999788 > 12`.  The exact-ℚ loop
  (`simLoop`) idealises this and stops after exactly 1200 steps; that is
  harmless for the claims proved over it (purity, the append-only point
  list, the landing-index bookkeeping), but not for the step-count/time
  bound itself.  For that bound the development carries a second loop
  (`simLoopFP`) whose time accumulator is exact binary64: every dyadic in
  the accumulator's reachable range is an integer multiple of `2^-59`, so
  time is carried as `ℕ` scaled by `2^59` and each addition is rounded with
  `fpRound`, IEEE round-to-nearest, ties-to-even (`tFP n` below reproduces
  the double sequence bit-for-bit).  The physics state advanced alongside
  stays in exact ℚ as everywhere else in this development.
-/

namespace TruArc

/-- Abstract interpretation of the JavaScript `Math` primitives used by the
physics module.  All results below hold for every choice of these
functions. -/
structure MathOps where
  pi : ℚ
  sqrt : ℚ → ℚ
  sin : ℚ → ℚ
  cos : ℚ → ℚ
  atan2 : ℚ → ℚ → ℚ

/-! Constants from the top of `flightPhysics.js`. -/

def AIR_DENSITY : ℚ := 1.225

def DISC_MASS : ℚ := 0.175

def DISC_DIAMETER : ℚ := 0.211

def DISC_AREA (M : MathOps) : ℚ := M.pi * (DISC_DIAMETER / 2) ^ 2

def GRAVITY : ℚ := 9.81

def DEG_TO_RAD (M : MathOps) : ℚ := M.pi / 180

def RAD_TO_DEG (M : MathOps) : ℚ := 180 / M.pi

def METERS_PER_DEG_LAT : ℚ := 111320

def metersPerDegLng (M : MathOps) (lat : ℚ) : ℚ :=
  METERS_PER_DEG_LAT * M.cos (lat * DEG_TO_RAD M)

/-! Data model. -/

/-- Disc flight ratings (`{ speed, glide, turn, fade }`). -/
structure Disc where
  speed : ℚ
  glide : ℚ
  turn : ℚ
  fade : ℚ
deriving DecidableEq

/-- Throw parameters record.  The JavaScript destructuring defaults
(`power = 80`, `aimAngle = 0`, `releaseAngle = 0`, `noseAngle = 12`) are
resolved by the caller here: the embedding takes the record fully
populated. -/
structure ThrowParams where
  power : ℚ
  aimAngle : ℚ
  releaseAngle : ℚ
  noseAngle : ℚ
deriving DecidableEq

/-- Wind input `{ speed, direction }` (direction the wind blows from). -/
structure Wind where
  speed : ℚ
  direction : ℚ
deriving DecidableEq

/-- Horizontal wind vector `{ vx, vz }` as consumed by `derivatives`. -/
structure WindVec where
  vx : ℚ
  vz : ℚ
deriving DecidableEq

/-- Physics state vector, mirroring `createState`. -/
structure FlightState where
  x : ℚ
  y : ℚ
  z : ℚ
  vx : ℚ
  vy : ℚ
  vz : ℚ
  roll : ℚ
  spin : ℚ
  t : ℚ
deriving DecidableEq

def createState (x y z vx vy vz roll spin t : ℚ) : FlightState :=
  ⟨x, y, z, vx, vy, vz, roll, spin, t⟩

/-- A trajectory sample `{ x, y, z }`. -/
structure Point where
  x : ℚ
  y : ℚ
  z : ℚ
deriving DecidableEq

/-- Result record of `simulateDiscFlight`.  `landingIndex` is an integer in
the source (it is initialised to `-1`), so it is embedded as `ℤ`. -/
structure SimulationResult where
  points : List Point
  landingIndex : ℤ
  maxHeight : ℚ
  totalDistance : ℚ
deriving DecidableEq

/-! Aerodynamic model (`liftCoefficient`, `dragCoefficient`,
`speedToVelocity`). -/

def liftCoefficient (disc : Disc) (angleOfAttack : ℚ) : ℚ :=
  let baseCl := 0.15 + disc.glide * 0.035
  let aoaEffect := angleOfAttack * 0.08
  let speedFactor := 1 + (disc.speed - 7) * 0.02
  max 0 ((baseCl + aoaEffect) * speedFactor)

def dragCoefficient (disc : Disc) (angleOfAttack : ℚ) : ℚ :=
  let baseCd := 0.08 - disc.speed * 0.003
  let aoaDrag := |angleOfAttack| * 0.04
  max 0.02 (baseCd + aoaDrag)

def speedToVelocity (speedRating : ℚ) (powerPercent : ℚ) : ℚ :=
  let maxV := 15 + speedRating * 1.6
  maxV * (powerPercent / 100)

/-! Derivative function and RK4 step. -/

/-- Derivative record returned by `derivatives`. -/
structure Derivs where
  dvx : ℚ
  dvy : ℚ
  dvz : ℚ
  droll : ℚ
  dspin : ℚ
deriving DecidableEq

/-- The wind-relative speed computed at the top of `derivatives`
(`Math.sqrt(vrx*vrx + vry*vry + vrz*vrz)`). -/
def relSpeedOf (M : MathOps) (s : FlightState) (wind : WindVec) : ℚ :=
  let vrx := s.vx - wind.vx
  let vry := s.vy
  let vrz := s.vz - wind.vz
  M.sqrt (vrx * vrx + vry * vry + vrz * vrz)

/-- Embedding of `derivatives(state, disc, wind)`. -/
def derivatives (M : MathOps) (s : FlightState) (disc : Disc) (wind : WindVec) : Derivs :=
  let vrx := s.vx - wind.vx
  let vry := s.vy
  let vrz := s.vz - wind.vz
  let relSpeed := relSpeedOf M s wind
  if relSpeed < 0.5 then
    { dvx := 0, dvy := -GRAVITY, dvz := 0, droll := 0, dspin := 0 }
  else
    let horizontalSpeed := M.sqrt (vrx * vrx + vrz * vrz)
    let aoa := if 0 < horizontalSpeed then M.atan2 vry horizontalSpeed * RAD_TO_DEG M else 0
    let effectiveAoA := aoa + s.roll * 0.3
    let q := 0.5 * AIR_DENSITY * relSpeed * relSpeed * DISC_AREA M
    let cl := liftCoefficient disc effectiveAoA
    let cd := dragCoefficient disc effectiveAoA
    let liftForce := q * cl
    let dragForce := q * cd
    let liftY := (liftForce / DISC_MASS) * M.cos (s.roll * DEG_TO_RAD M)
    let liftLateral := (liftForce / DISC_MASS) * M.sin (s.roll * DEG_TO_RAD M) * 0.3
    let dragAx := -(dragForce / DISC_MASS) * (vrx / relSpeed)
    let dragAy := -(dragForce / DISC_MASS) * (vry / relSpeed)
    let dragAz := -(dragForce / DISC_MASS) * (vrz / relSpeed)
    let speedFraction := relSpeed / speedToVelocity disc.speed 80
    let turnEffect := disc.turn * 2.5 * speedFraction * (s.spin / 1000)
    let fadeFraction := max 0 (1 - speedFraction)
    let fadeEffect := disc.fade * 3.0 * fadeFraction * max 0.3 (s.spin / 1000)
    let lateralForce := turnEffect + fadeEffect
    let heading := M.atan2 vrx vrz
    let latX := lateralForce * M.cos heading
    let latZ := -lateralForce * M.sin heading
    let rollFromTurn := disc.turn * 1.5 * speedFraction
    let rollFromFade := -disc.fade * 2.0 * fadeFraction
    let rollDamping := -s.roll * 0.5
    let droll := rollFromTurn + rollFromFade + rollDamping
    let dspin := -s.spin * 0.15
    { dvx := dragAx + liftLateral + latX,
      dvy := dragAy + liftY - GRAVITY,
      dvz := dragAz + latZ,
      droll := droll,
      dspin := dspin }

/-- Embedding of `rk4Step(state, disc, wind, dt)`. -/
def rk4Step (M : MathOps) (s : FlightState) (disc : Disc) (wind : WindVec) (dt : ℚ) :
    FlightState :=
  let k1 := derivatives M s disc wind
  let s2 := { s with
    vx := s.vx + k1.dvx * dt / 2, vy := s.vy + k1.dvy * dt / 2, vz := s.vz + k1.dvz * dt / 2,
    roll := s.roll + k1.droll * dt / 2, spin := s.spin + k1.dspin * dt / 2 }
  let k2 := derivatives M s2 disc wind
  let s3 := { s with
    vx := s.vx + k2.dvx * dt / 2, vy := s.vy + k2.dvy * dt / 2, vz := s.vz + k2.dvz * dt / 2,
    roll := s.roll + k2.droll * dt / 2, spin := s.spin + k2.dspin * dt / 2 }
  let k3 := derivatives M s3 disc wind
  let s4 := { s with
    vx := s.vx + k3.dvx * dt, vy := s.vy + k3.dvy * dt, vz := s.vz + k3.dvz * dt,
    roll := s.roll + k3.droll * dt, spin := s.spin + k3.dspin * dt }
  let k4 := derivatives M s4 disc wind
  createState
    (s.x + s.vx * dt)
    (s.y + s.vy * dt)
    (s.z + s.vz * dt)
    (s.vx + (k1.dvx + 2 * k2.dvx + 2 * k3.dvx + k4.dvx) * dt / 6)
    (s.vy + (k1.dvy + 2 * k2.dvy + 2 * k3.dvy + k4.dvy) * dt / 6)
    (s.vz + (k1.dvz + 2 * k2.dvz + 2 * k3.dvz + k4.dvz) * dt / 6)
    (s.roll + (k1.droll + 2 * k2.droll + 2 * k3.droll + k4.droll) * dt / 6)
    (s.spin + (k1.dspin + 2 * k2.dspin + 2 * k3.dspin + k4.dspin) * dt / 6)
    (s.t + dt)

/-! The simulation loop of `simulateDiscFlight`. -/

def simDt : ℚ := 0.01

def simMaxTime : ℚ := 12

def sampleEvery : ℕ := 3

/-- Mutable locals of the `while` loop in `simulateDiscFlight`; `done`
records that the `break` on ground contact was taken. -/
structure LoopState where
  state : FlightState
  points : List Point
  maxHeight : ℚ
  landingIndex : ℤ
  stepCount : ℕ
  done : Bool
deriving DecidableEq

/-- One iteration of the `while` body of `simulateDiscFlight` (lines
237-258): RK4 step, ground-collision check with landing interpolation and
`break`, and every-third-step sampling. -/
def simStepBody (M : MathOps) (disc : Disc) (wind : WindVec) (ground : ℚ → ℚ → ℚ)
    (acc : LoopState) : LoopState :=
  let state := rk4Step M acc.state disc wind simDt
  let stepCount := acc.stepCount + 1
  let groundY := ground state.x state.z
  if state.y ≤ groundY ∧ 0.3 < state.t then
    let prev := acc.points.getD (acc.points.length - 1) ⟨0, 0, 0⟩
    let tFrac := (groundY - prev.y) / (state.y - prev.y)
    let landX := prev.x + (state.x - prev.x) * tFrac
    let landZ := prev.z + (state.z - prev.z) * tFrac
    let pts := acc.points ++ [⟨landX, groundY, landZ⟩]
    { state := state, points := pts, maxHeight := acc.maxHeight,
      landingIndex := (pts.length : ℤ) - 1, stepCount := stepCount, done := true }
  else if stepCount % sampleEvery = 0 then
    { state := state, points := acc.points ++ [⟨state.x, state.y, state.z⟩],
      maxHeight := max acc.maxHeight state.y, landingIndex := acc.landingIndex,
      stepCount := stepCount, done := acc.done }
  else
    { state := state, points := acc.points, maxHeight := acc.maxHeight,
      landingIndex := acc.landingIndex, stepCount := stepCount, done := acc.done }

/-- Fuel-indexed unfolding of `while (state.t < maxTime)`; the `done` flag
short-circuits further iterations exactly as `break` does.  The fuel is an
artefact of the embedding: `simLoop_fuel_stable` below proves that any fuel
of at least 1201 yields the same result, so `simulateDiscFlight` runs it
with fuel 1201. -/
def simLoop (M : MathOps) (disc : Disc) (wind : WindVec) (ground : ℚ → ℚ → ℚ) :
    ℕ → LoopState → LoopState
  | 0, acc => acc
  | fuel + 1, acc =>
    if acc.done = false ∧ acc.state.t < simMaxTime then
      simLoop M disc wind ground fuel (simStepBody M disc wind ground acc)
    else acc

/-- The loop state at entry of the `while` loop (lines 199-235). -/
def initLoopState (M : MathOps) (disc : Disc) (throwParams : ThrowParams) :
    LoopState :=
  let v0 := speedToVelocity disc.speed throwParams.power
  let aimRad := throwParams.aimAngle * DEG_TO_RAD M
  let noseRad := throwParams.noseAngle * DEG_TO_RAD M
  let vHorizontal := v0 * M.cos noseRad
  let vx := vHorizontal * M.sin aimRad
  let vy := v0 * M.sin noseRad
  let vz := vHorizontal * M.cos aimRad
  let initialSpin := 800 + disc.speed * 60
  let state := createState 0 2 0 vx vy vz throwParams.releaseAngle initialSpin 0
  { state := state, points := [⟨state.x, state.y, state.z⟩], maxHeight := state.y,
    landingIndex := -1, stepCount := 0, done := false }

/-- Horizontal wind vector computed from the `{ speed, direction }` input
(lines 218-222). -/
def windVecOf (M : MathOps) (wind : Wind) : WindVec :=
  let windRad := wind.direction * DEG_TO_RAD M
  { vx := -wind.speed * M.sin windRad, vz := -wind.speed * M.cos windRad }

/-- The whole loop of `simulateDiscFlight`, run with explicit fuel. -/
def simRun (M : MathOps) (disc : Disc) (throwParams : ThrowParams) (wind : Wind)
    (ground : ℚ → ℚ → ℚ) (fuel : ℕ) : LoopState :=
  simLoop M disc (windVecOf M wind) ground fuel (initLoopState M disc throwParams)

/-- Embedding of `simulateDiscFlight(disc, throwParams, wind, getGroundElev)`.
A `null` elevation callback in the source is the constant-zero function
here.  Fuel 1201 is sufficient for the `while` loop to reach one of its
exits (`simLoop_fuel_stable`). -/
def simulateDiscFlight (M : MathOps) (disc : Disc) (throwParams : ThrowParams)
    (wind : Wind) (ground : ℚ → ℚ → ℚ) : SimulationResult :=
  let acc := simRun M disc throwParams wind ground 1201
  let landingIndex : ℤ :=
    if acc.landingIndex < 0 then (acc.points.length : ℤ) - 1 else acc.landingIndex
  let landing := acc.points.getD landingIndex.toNat ⟨0, 0, 0⟩
  { points := acc.points, landingIndex := landingIndex, maxHeight := acc.maxHeight,
    totalDistance := M.sqrt (landing.x ^ 2 + landing.z ^ 2) }

/-! Coordinate projection (`trajectoryToWGS84`). -/

/-- Geodetic input point `{ lng, lat, elevation }`. -/
structure Geo where
  lng : ℚ
  lat : ℚ
  elevation : ℚ
deriving DecidableEq

/-- Geodetic output point `{ lng, lat, altitude }` produced by
`trajectoryToWGS84`. -/
structure GeoOut where
  lng : ℚ
  lat : ℚ
  altitude : ℚ
deriving DecidableEq

/-- Embedding of `trajectoryToWGS84(points, origin, bearingDeg)`. -/
def trajectoryToWGS84 (M : MathOps) (points : List Point) (origin : Geo)
    (bearingDeg : ℚ) : List GeoOut :=
  let mPerDegLng := metersPerDegLng M origin.lat
  let bearingRad := bearingDeg * DEG_TO_RAD M
  points.map fun p =>
    let rx := p.x * M.cos bearingRad - p.z * M.sin bearingRad
    let rz := p.x * M.sin bearingRad + p.z * M.cos bearingRad
    { lng := origin.lng + rx / mPerDegLng,
      lat := origin.lat + rz / METERS_PER_DEG_LAT,
      altitude := origin.elevation + p.y }

/-! Measurement (`measure3DDistance`). -/

/-- Result record of `measure3DDistance`. -/
structure Measurement where
  distanceM : ℚ
  distanceFt : ℚ
  elevChangeM : ℚ
  elevChangeFt : ℚ
  horizontalM : ℚ
  horizontalFt : ℚ
  bearingDeg : ℚ
deriving DecidableEq

/-- Embedding of `measure3DDistance(a, b)`. -/
def measure3DDistance (M : MathOps) (a b : Geo) : Measurement :=
  let avgLat := (a.lat + b.lat) / 2
  let dx := (b.lng - a.lng) * metersPerDegLng M avgLat
  let dy := (b.lat - a.lat) * METERS_PER_DEG_LAT
  let dz := b.elevation - a.elevation
  let horizontalDist := M.sqrt (dx * dx + dy * dy)
  let totalDist := M.sqrt (dx * dx + dy * dy + dz * dz)
  { distanceM := totalDist,
    distanceFt := totalDist * 3.28084,
    elevChangeM := dz,
    elevChangeFt := dz * 3.28084,
    horizontalM := horizontalDist,
    horizontalFt := horizontalDist * 3.28084,
    bearingDeg := M.atan2 dx dy * RAD_TO_DEG M }

/-! Trajectory smoothing (`smoothBezierCurve`).  `Math.floor`, `Math.min`
and `Math.max` are exact on rationals; the only JavaScript behaviours that
need explicit modelling are `NaN` from a zero denominator (the `t = i /
(segments - 1)` division) and `undefined` from an out-of-range array index,
both of which end in a thrown TypeError at the subsequent property access.
Either is represented by `none`. -/

/-- JavaScript division as used to compute the smoothing parameter:
a zero denominator yields `NaN`/`Infinity` and hence (through the `NaN`
or out-of-range array index it produces) a thrown TypeError, represented
here by `none`. -/
def jsDiv (a b : ℚ) : Option ℚ :=
  if b = 0 then none else some (a / b)

/-- JavaScript array indexing `l[i]`: a negative or out-of-range index
reads `undefined`, which makes the following property access throw;
represented by `none`. -/
def jsIndex (l : List Point) (i : ℤ) : Option Point :=
  if i < 0 then none else l.get? i.toNat

/-- The scalar Catmull-Rom interpolation polynomial used component-wise in
`smoothBezierCurve`. -/
def catmullRom (p0 p1 p2 p3 tt : ℚ) : ℚ :=
  0.5 * ((2 * p1) + (-p0 + p2) * tt + (2 * p0 - 5 * p1 + 4 * p2 - p3) * tt ^ 2 +
    (-p0 + 3 * p1 - 3 * p2 + p3) * tt ^ 3)

/-- One iteration of the `for` loop of `smoothBezierCurve`, producing the
output point for loop index `i` (or `none` when the JavaScript iteration
throws). -/
def smoothPoint (rawPoints : List Point) (segments : ℕ) (i : ℕ) : Option Point :=
  Option.bind (jsDiv (i : ℚ) ((segments : ℚ) - 1)) fun t =>
    let idx := t * ((rawPoints.length : ℚ) - 1)
    let i0 : ℤ := max 0 (⌊idx⌋ - 1)
    let i1 : ℤ := ⌊idx⌋
    let i2 : ℤ := min ((rawPoints.length : ℤ) - 1) (i1 + 1)
    let i3 : ℤ := min ((rawPoints.length : ℤ) - 1) (i2 + 1)
    let frac := idx - (⌊idx⌋ : ℚ)
    Option.bind (jsIndex rawPoints i0) fun p0 =>
      Option.bind (jsIndex rawPoints i1) fun p1 =>
        Option.bind (jsIndex rawPoints i2) fun p2 =>
          Option.bind (jsIndex rawPoints i3) fun p3 =>
            some
              { x := catmullRom p0.x p1.x p2.x p3.x frac,
                y := catmullRom p0.y p1.y p2.y p3.y frac,
                z := catmullRom p0.z p1.z p2.z p3.z frac }

/-- Sequencing of the loop iterations: `none` as soon as one iteration
throws, otherwise the list of pushed points in order. -/
def optionMapList (f : α → Option β) : List α → Option (List β)
  | [] => some []
  | a :: l =>
    match f a, optionMapList f l with
    | some b, some bs => some (b :: bs)
    | _, _ => none

/-- Embedding of `smoothBezierCurve(rawPoints, segments)`: `some` the
returned array, or `none` when the JavaScript call throws. -/
def smoothBezierCurve (rawPoints : List Point) (segments : ℕ) : Option (List Point) :=
  if rawPoints.length < 2 then some rawPoints
  else optionMapList (smoothPoint rawPoints segments) (List.range segments)

/-! Lemmas about the smoothing embedding. -/

theorem jsIndex_eq_get (l : List Point) (i : ℤ) (h0 : 0 ≤ i) (hl : i.toNat < l.length) :
    jsIndex l i = some (l.get ⟨i.toNat, hl⟩) := by
  unfold jsIndex
  rw [if_neg (not_lt.mpr h0), List.get?_eq_get hl]

theorem jsIndex_eq_get_nat (l : List Point) (i : ℤ) (n : ℕ) (h0 : 0 ≤ i)
    (hn : i.toNat = n) (hl : n < l.length) : jsIndex l i = some (l.get ⟨n, hl⟩) := by
  subst hn
  exact jsIndex_eq_get l i h0 hl

theorem catmullRom_zero (p0 p1 p2 p3 : ℚ) : catmullRom p0 p1 p2 p3 0 = p1 := by
  unfold catmullRom
  ring

theorem optionMapList_length {α β : Type} (f : α → Option β) :
    ∀ (l : List α) (out : List β), optionMapList f l = some out → out.length = l.length := by
  intro l
  induction l with
  | nil =>
    intro out h
    simp only [optionMapList, Option.some.injEq] at h
    rw [← h]
    rfl
  | cons a t ih =>
    intro out h
    cases hfa : f a with
    | none => simp [optionMapList, hfa] at h
    | some b =>
      cases hmt : optionMapList f t with
      | none => simp [optionMapList, hfa, hmt] at h
      | some bs =>
        simp only [optionMapList, hfa, hmt, Option.some.injEq] at h
        rw [← h]
        simp [ih bs hmt]

theorem optionMapList_get {α β : Type} (f : α → Option β) :
    ∀ (l : List α) (out : List β), optionMapList f l = some out →
      ∀ (i : ℕ) (h1 : i < l.length) (h2 : i < out.length),
        f (l.get ⟨i, h1⟩) = some (out.get ⟨i, h2⟩) := by
  intro l
  induction l with
  | nil =>
    intro out h i h1
    exact absurd h1 (by simp)
  | cons a t ih =>
    intro out h i h1 h2
    cases hfa : f a with
    | none => simp [optionMapList, hfa] at h
    | some b =>
      cases hmt : optionMapList f t with
      | none => simp [optionMapList, hfa, hmt] at h
      | some bs =>
        simp only [optionMapList, hfa, hmt, Option.some.injEq] at h
        subst h
        cases i with
        | zero => exact hfa
        | succ n => exact ih bs hmt n (Nat.lt_of_succ_lt_succ h1) (Nat.lt_of_succ_lt_succ h2)

theorem optionMapList_isSome {α β : Type} (f : α → Option β) :
    ∀ l : List α, (∀ a ∈ l, ∃ b, f a = some b) → ∃ out, optionMapList f l = some out := by
  intro l
  induction l with
  | nil => exact fun _ => ⟨[], rfl⟩
  | cons a t ih =>
    intro h
    obtain ⟨b, hb⟩ := h a (List.mem_cons_self a t)
    obtain ⟨bs, hbs⟩ := ih fun x hx => h x (List.mem_cons_of_mem a hx)
    exact ⟨b :: bs, by simp [optionMapList, hb, hbs]⟩

/-- Every iteration of the smoothing loop succeeds when the input has at
least two points and at least two segments are requested: the parameter
stays in `[0,1]`, so all four Catmull-Rom support indices are in range. -/
theorem smoothPoint_isSome (raw : List Point) (s i : ℕ) (h2 : 2 ≤ raw.length)
    (hs : 2 ≤ s) (hi : i < s) : ∃ p, smoothPoint raw s i = some p := by
  have hs2 : (2 : ℚ) ≤ (s : ℚ) := by exact_mod_cast hs
  have hl2 : (2 : ℚ) ≤ (raw.length : ℚ) := by exact_mod_cast h2
  have hs1 : (0 : ℚ) < (s : ℚ) - 1 := by linarith
  have hden : ((s : ℚ) - 1) ≠ 0 := ne_of_gt hs1
  have hdiv : jsDiv (i : ℚ) ((s : ℚ) - 1) = some ((i : ℚ) / ((s : ℚ) - 1)) := by
    unfold jsDiv
    rw [if_neg hden]
  unfold smoothPoint
  rw [hdiv]
  simp only [Option.some_bind]
  set idx : ℚ := (i : ℚ) / ((s : ℚ) - 1) * ((raw.length : ℚ) - 1) with hidx
  have ht0 : 0 ≤ (i : ℚ) / ((s : ℚ) - 1) :=
    div_nonneg (Nat.cast_nonneg i) (le_of_lt hs1)
  have ht1 : (i : ℚ) / ((s : ℚ) - 1) ≤ 1 := by
    rw [div_le_one hs1]
    have hc : ((i : ℚ)) + 1 ≤ (s : ℚ) := by exact_mod_cast Nat.succ_le_of_lt hi
    linarith
  have hidx0 : 0 ≤ idx := by
    rw [hidx]
    apply mul_nonneg ht0
    linarith
  have hidx1 : idx ≤ (raw.length : ℚ) - 1 := by
    rw [hidx]
    calc (i : ℚ) / ((s : ℚ) - 1) * ((raw.length : ℚ) - 1)
        ≤ 1 * ((raw.length : ℚ) - 1) := by
          apply mul_le_mul_of_nonneg_right ht1
          linarith
      _ = (raw.length : ℚ) - 1 := one_mul _
  have hf0 : 0 ≤ ⌊idx⌋ := Int.le_floor.mpr (by exact_mod_cast hidx0)
  have hfli : ⌊idx⌋ ≤ (raw.length : ℤ) - 1 := by
    have hcast : ((raw.length : ℚ) - 1) = (((raw.length : ℤ) - 1 : ℤ) : ℚ) := by push_cast; ring
    have := Int.floor_le_floor hidx1
    rwa [hcast, Int.floor_intCast] at this
  have hlen2 : (2 : ℤ) ≤ (raw.length : ℤ) := by exact_mod_cast h2
  rw [jsIndex_eq_get raw (max 0 (⌊idx⌋ - 1)) (le_max_left 0 _) (by omega)]
  simp only [Option.some_bind]
  rw [jsIndex_eq_get raw ⌊idx⌋ hf0 (by omega)]
  simp only [Option.some_bind]
  rw [jsIndex_eq_get raw (min ((raw.length : ℤ) - 1) (⌊idx⌋ + 1)) (by omega) (by omega)]
  simp only [Option.some_bind]
  rw [jsIndex_eq_get raw
    (min ((raw.length : ℤ) - 1) (min ((raw.length : ℤ) - 1) (⌊idx⌋ + 1) + 1))
    (by omega) (by omega)]
  simp only [Option.some_bind]
  exact ⟨_, rfl⟩

/-- The first iteration of the smoothing loop reproduces the first input
point: the parameter is 0, so the Catmull-Rom polynomial collapses to its
`p1` control point, which is `rawPoints[0]`. -/
theorem smoothPoint_zero (raw : List Point) (s : ℕ) (h2 : 2 ≤ raw.length) (hs : 2 ≤ s)
    (h0 : 0 < raw.length) :
    smoothPoint raw s 0 = some (raw.get ⟨0, h0⟩) := by
  have hs2 : (2 : ℚ) ≤ (s : ℚ) := by exact_mod_cast hs
  have hs1 : (0 : ℚ) < (s : ℚ) - 1 := by linarith
  have hden : ((s : ℚ) - 1) ≠ 0 := ne_of_gt hs1
  have hdiv : jsDiv ((0 : ℕ) : ℚ) ((s : ℚ) - 1) = some 0 := by
    unfold jsDiv
    rw [if_neg hden]
    norm_num
  unfold smoothPoint
  rw [hdiv]
  simp only [Option.some_bind, zero_mul, Int.floor_zero, zero_sub, zero_add, Int.cast_zero,
    sub_zero, neg_zero]
  have hlen2 : (2 : ℤ) ≤ (raw.length : ℤ) := by exact_mod_cast h2
  have hm0 : max (0 : ℤ) (-1) = 0 := by omega
  have hm2 : min ((raw.length : ℤ) - 1) 1 = 1 := by omega
  simp only [hm0, hm2]
  rw [jsIndex_eq_get_nat raw 0 0 le_rfl rfl h0]
  rw [jsIndex_eq_get raw (min ((raw.length : ℤ) - 1) (1 + 1)) (by omega) (by omega)]
  rw [jsIndex_eq_get_nat raw 1 1 (by omega) rfl (by omega)]
  simp only [Option.some_bind, catmullRom_zero]

/-- The last iteration of the smoothing loop reproduces the last input
point: the parameter is 1, the fractional part is 0, and `p1` is
`rawPoints[rawPoints.length - 1]`. -/
theorem smoothPoint_last (raw : List Point) (s : ℕ) (h2 : 2 ≤ raw.length) (hs : 2 ≤ s)
    (hl : raw.length - 1 < raw.length) :
    smoothPoint raw s (s - 1) = some (raw.get ⟨raw.length - 1, hl⟩) := by
  have hs2 : (2 : ℚ) ≤ (s : ℚ) := by exact_mod_cast hs
  have hs1 : (0 : ℚ) < (s : ℚ) - 1 := by linarith
  have hden : ((s : ℚ) - 1) ≠ 0 := ne_of_gt hs1
  have hone : 1 ≤ s := by omega
  have hcast : (((s - 1 : ℕ)) : ℚ) = (s : ℚ) - 1 := by
    push_cast [hone]
    ring
  have hdiv : jsDiv (((s - 1 : ℕ)) : ℚ) ((s : ℚ) - 1) = some 1 := by
    unfold jsDiv
    rw [if_neg hden, hcast, div_self hden]
  unfold smoothPoint
  rw [hdiv]
  simp only [Option.some_bind, one_mul]
  have hfl : ⌊(raw.length : ℚ) - 1⌋ = (raw.length : ℤ) - 1 := by
    rw [show ((raw.length : ℚ) - 1) = (((raw.length : ℤ) - 1 : ℤ) : ℚ) by push_cast; ring,
      Int.floor_intCast]
  rw [hfl]
  have hfrac : ((raw.length : ℚ) - 1) - (((raw.length : ℤ) - 1 : ℤ) : ℚ) = 0 := by
    push_cast
    ring
  rw [hfrac]
  have hlen2 : (2 : ℤ) ≤ (raw.length : ℤ) := by exact_mod_cast h2
  have hm2 : min ((raw.length : ℤ) - 1) ((raw.length : ℤ) - 1 + 1) = (raw.length : ℤ) - 1 := by
    omega
  simp only [hm2]
  rw [jsIndex_eq_get raw (max 0 ((raw.length : ℤ) - 1 - 1)) (le_max_left _ _) (by omega)]
  rw [jsIndex_eq_get_nat raw ((raw.length : ℤ) - 1) (raw.length - 1) (by omega) (by omega) hl]
  simp only [Option.some_bind, catmullRom_zero]

theorem head?_eq_get (l : List Point) (h : 0 < l.length) :
    l.head? = some (l.get ⟨0, h⟩) := by
  cases l with
  | nil => simp at h
  | cons a t => rfl

theorem getLast?_eq_get (l : List Point) (h : l.length - 1 < l.length) :
    l.getLast? = some (l.get ⟨l.length - 1, h⟩) := by
  have hne : l ≠ [] := by
    intro he
    rw [he] at h
    simp at h
  rw [List.getLast?_eq_getLast_of_ne_nil hne]
  congr 1
  rw [List.get_length_sub_one]

/-- A concrete interpretation of the `Math` primitives, used to instantiate
universally quantified theorems at closed inputs. -/
def trivMath : MathOps :=
  { pi := 355 / 113, sqrt := fun _ => 0, sin := fun _ => 0, cos := fun _ => 0,
    atan2 := fun _ _ => 0 }

/-! Loop invariants of the simulation `while` loop. -/

/-- Each RK4 step advances simulated time by exactly `dt`. -/
theorem rk4Step_t (M : MathOps) (s : FlightState) (disc : Disc) (wind : WindVec) (dt : ℚ) :
    (rk4Step M s disc wind dt).t = s.t + dt := rfl

/-- Simulated time equals the step counter times the fixed step size. -/
def StepInv (acc : LoopState) : Prop :=
  acc.state.t = (acc.stepCount : ℚ) * simDt

/-- Bookkeeping invariant tying the `break`/`landingIndex` state together:
points stay non-empty, after the `break` the landing index is the last
index, and before it the landing index is still the `-1` sentinel. -/
def LandInv (acc : LoopState) : Prop :=
  acc.points ≠ [] ∧
    (acc.done = true → acc.landingIndex = (acc.points.length : ℤ) - 1) ∧
    (acc.done = false → acc.landingIndex = -1)

/-- The loop body takes one of exactly three shapes: the landing `break`
branch, the sampling branch, or the plain stepping branch. -/
theorem simStepBody_eq (M : MathOps) (disc : Disc) (wind : WindVec) (g : ℚ → ℚ → ℚ)
    (acc : LoopState) :
    (∃ p, simStepBody M disc wind g acc =
        { state := rk4Step M acc.state disc wind simDt,
          points := acc.points ++ [p],
          maxHeight := acc.maxHeight,
          landingIndex := ((acc.points ++ [p]).length : ℤ) - 1,
          stepCount := acc.stepCount + 1, done := true }) ∨
      (∃ p, simStepBody M disc wind g acc =
        { state := rk4Step M acc.state disc wind simDt,
          points := acc.points ++ [p],
          maxHeight := max acc.maxHeight (rk4Step M acc.state disc wind simDt).y,
          landingIndex := acc.landingIndex,
          stepCount := acc.stepCount + 1, done := acc.done }) ∨
      simStepBody M disc wind g acc =
        { state := rk4Step M acc.state disc wind simDt,
          points := acc.points, maxHeight := acc.maxHeight,
          landingIndex := acc.landingIndex,
          stepCount := acc.stepCount + 1, done := acc.done } := by
  simp only [simStepBody]
  split
  · exact Or.inl ⟨_, rfl⟩
  · split
    · exact Or.inr (Or.inl ⟨_, rfl⟩)
    · exact Or.inr (Or.inr rfl)

theorem simStepBody_t_count (M : MathOps) (disc : Disc) (wind : WindVec) (g : ℚ → ℚ → ℚ)
    (acc : LoopState) :
    (simStepBody M disc wind g acc).state.t = acc.state.t + simDt ∧
      (simStepBody M disc wind g acc).stepCount = acc.stepCount + 1 := by
  rcases simStepBody_eq M disc wind g acc with ⟨p, h⟩ | ⟨p, h⟩ | h <;> rw [h] <;>
    exact ⟨rfl, rfl⟩

theorem simStepBody_stepInv (M : MathOps) (disc : Disc) (wind : WindVec) (g : ℚ → ℚ → ℚ)
    (acc : LoopState) (h : StepInv acc) : StepInv (simStepBody M disc wind g acc) := by
  obtain ⟨ht, hc⟩ := simStepBody_t_count M disc wind g acc
  unfold StepInv at h ⊢
  rw [ht, hc, h]
  push_cast
  ring

theorem simStepBody_landInv (M : MathOps) (disc : Disc) (wind : WindVec) (g : ℚ → ℚ → ℚ)
    (acc : LoopState) (h : LandInv acc) (hdone : acc.done = false) :
    LandInv (simStepBody M disc wind g acc) ∧
      (simStepBody M disc wind g acc).points.head? = acc.points.head? := by
  obtain ⟨hne, -, hidx⟩ := h
  rcases simStepBody_eq M disc wind g acc with ⟨p, hb⟩ | ⟨p, hb⟩ | hb <;> rw [hb]
  · refine ⟨⟨by simp, fun _ => rfl, fun hd => ?_⟩, List.head?_append_of_ne_nil _ hne⟩
    cases hd
  · refine ⟨⟨by simp, fun hd => ?_, fun _ => hidx hdone⟩,
      List.head?_append_of_ne_nil _ hne⟩
    rw [hdone] at hd
    cases hd
  · refine ⟨⟨hne, fun hd => ?_, fun _ => hidx hdone⟩, rfl⟩
    rw [hdone] at hd
    cases hd

theorem simLoop_succ (M : MathOps) (disc : Disc) (wind : WindVec) (g : ℚ → ℚ → ℚ)
    (fuel : ℕ) (acc : LoopState) :
    simLoop M disc wind g (fuel + 1) acc =
      if acc.done = false ∧ acc.state.t < simMaxTime then
        simLoop M disc wind g fuel (simStepBody M disc wind g acc)
      else acc := rfl

theorem simLoop_of_stop (M : MathOps) (disc : Disc) (wind : WindVec) (g : ℚ → ℚ → ℚ)
    (acc : LoopState) (h : ¬(acc.done = false ∧ acc.state.t < simMaxTime)) (fuel : ℕ) :
    simLoop M disc wind g fuel acc = acc := by
  cases fuel with
  | zero => rfl
  | succ n => rw [simLoop_succ, if_neg h]

/-- With the time/step invariant, a step counter at 1200 means the loop
condition `state.t < 12` fails. -/
theorem stop_of_count_ge (acc : LoopState) (hinv : StepInv acc)
    (hge : 1200 ≤ acc.stepCount) : ¬(acc.done = false ∧ acc.state.t < simMaxTime) := by
  rintro ⟨-, hlt⟩
  rw [hinv] at hlt
  have hc : (1200 : ℚ) ≤ (acc.stepCount : ℚ) := by exact_mod_cast hge
  simp only [simDt, simMaxTime] at hlt
  nlinarith

/-- While the loop is still running, the step counter is below 1200. -/
theorem count_lt_of_run (acc : LoopState) (hinv : StepInv acc)
    (hrun : acc.state.t < simMaxTime) : acc.stepCount < 1200 := by
  by_contra hge
  push_neg at hge
  rw [hinv] at hrun
  have hc : (1200 : ℚ) ≤ (acc.stepCount : ℚ) := by exact_mod_cast hge
  simp only [simDt, simMaxTime] at hrun
  nlinarith

/-- Fuel beyond what the 12-second ceiling allows does not change the loop
result: the `while` loop terminates within the remaining step budget. -/
theorem simLoop_add_stable (M : MathOps) (disc : Disc) (wind : WindVec) (g : ℚ → ℚ → ℚ) :
    ∀ (fuel extra : ℕ) (acc : LoopState), StepInv acc → 1200 ≤ acc.stepCount + fuel →
      simLoop M disc wind g (fuel + extra) acc = simLoop M disc wind g fuel acc := by
  intro fuel
  induction fuel with
  | zero =>
    intro extra acc hinv hle
    rw [Nat.add_zero] at hle
    rw [Nat.zero_add, simLoop_of_stop M disc wind g acc (stop_of_count_ge acc hinv hle) extra]
    rfl
  | succ n ih =>
    intro extra acc hinv hle
    by_cases hg : acc.done = false ∧ acc.state.t < simMaxTime
    · have hshift : n + 1 + extra = (n + extra) + 1 := by omega
      rw [hshift, simLoop_succ, simLoop_succ, if_pos hg, if_pos hg]
      refine ih extra _ (simStepBody_stepInv M disc wind g acc hinv) ?_
      rw [(simStepBody_t_count M disc wind g acc).2]
      omega
    · rw [simLoop_of_stop M disc wind g acc hg, simLoop_of_stop M disc wind g acc hg]

/-- The loop keeps the time/step invariant and never exceeds 1200 steps. -/
theorem simLoop_count_le (M : MathOps) (disc : Disc) (wind : WindVec) (g : ℚ → ℚ → ℚ) :
    ∀ (fuel : ℕ) (acc : LoopState), StepInv acc → acc.stepCount ≤ 1200 →
      StepInv (simLoop M disc wind g fuel acc) ∧
        (simLoop M disc wind g fuel acc).stepCount ≤ 1200 := by
  intro fuel
  induction fuel with
  | zero => exact fun acc h1 h2 => ⟨h1, h2⟩
  | succ n ih =>
    intro acc h1 h2
    by_cases hg : acc.done = false ∧ acc.state.t < simMaxTime
    · rw [simLoop_succ, if_pos hg]
      refine ih _ (simStepBody_stepInv M disc wind g acc h1) ?_
      rw [(simStepBody_t_count M disc wind g acc).2]
      exact count_lt_of_run acc h1 hg.2
    · rw [simLoop_succ, if_neg hg]
      exact ⟨h1, h2⟩

/-- The loop preserves the landing bookkeeping invariant and the head of
the point list. -/
theorem simLoop_landInv (M : MathOps) (disc : Disc) (wind : WindVec) (g : ℚ → ℚ → ℚ) :
    ∀ (fuel : ℕ) (acc : LoopState), LandInv acc →
      LandInv (simLoop M disc wind g fuel acc) ∧
        (simLoop M disc wind g fuel acc).points.head? = acc.points.head? := by
  intro fuel
  induction fuel with
  | zero => exact fun acc h => ⟨h, rfl⟩
  | succ n ih =>
    intro acc h
    by_cases hg : acc.done = false ∧ acc.state.t < simMaxTime
    · rw [simLoop_succ, if_pos hg]
      obtain ⟨hb, hh⟩ := simStepBody_landInv M disc wind g acc h hg.1
      obtain ⟨hl, hh2⟩ := ih _ hb
      exact ⟨hl, hh2.trans hh⟩
    · rw [simLoop_succ, if_neg hg]
      exact ⟨h, rfl⟩

theorem simRun_eq (M : MathOps) (disc : Disc) (tp : ThrowParams) (w : Wind)
    (g : ℚ → ℚ → ℚ) (fuel : ℕ) :
    simRun M disc tp w g fuel =
      simLoop M disc (windVecOf M w) g fuel (initLoopState M disc tp) := rfl

theorem initLoopState_stepInv (M : MathOps) (disc : Disc) (tp : ThrowParams) :
    StepInv (initLoopState M disc tp) := by
  unfold StepInv initLoopState createState
  norm_num

theorem initLoopState_landInv (M : MathOps) (disc : Disc) (tp : ThrowParams) :
    LandInv (initLoopState M disc tp) := by
  refine ⟨by simp [initLoopState], fun hd => ?_, fun _ => rfl⟩
  simp [initLoopState] at hd

/-- `getLast?` through `getD` at index `length - 1`. -/
theorem getLast?_eq_getD {α : Type} : ∀ (l : List α) (d : α), l ≠ [] →
    l.getLast? = some (l.getD (l.length - 1) d)
  | [], _, h => absurd rfl h
  | [a], d, _ => rfl
  | a :: b :: t, d, _ => by
    rw [List.getLast?_cons_cons, getLast?_eq_getD (b :: t) d (List.cons_ne_nil _ _)]
    have hl : (a :: b :: t).length - 1 = ((b :: t).length - 1) + 1 := by simp
    rw [hl, List.getD_cons_succ]

/-! Binary64 model of the loop's time accumulator.

In the source, `state.t` is a JavaScript number (IEEE binary64) advanced by
`state.t + dt` with `dt = 0.01`.  All reachable accumulator values are
dyadic rationals that are integer multiples of `2^-59` (the double nearest
`0.01` is `5764607523034235 / 2^59`, and rounding at the exponents reached
keeps the grid at least that fine), so time is carried as a natural number
scaled by `2^59` and each addition is rounded back to the binary64 grid
with round-to-nearest, ties-to-even. -/

/-- `0.01` as a binary64 double, scaled by `2^59`. -/
def DT_FP : ℕ := 5764607523034235

/-- `0.3` as a binary64 double (the landing guard constant), scaled by
`2^59`. -/
def C03_FP : ℕ := 172938225691027040

/-- `12` (the loop ceiling `maxTime`; exactly representable), scaled by
`2^59`. -/
def MAXT_FP : ℕ := 12 * 2 ^ 59

/-- Largest `e ≤ k` with `2^e ≤ a` (0 when none): exponent search for the
leading bit. -/
def fpExpGo (a : ℕ) : ℕ → ℕ
  | 0 => 0
  | e + 1 => if 2 ^ (e + 1) ≤ a then e + 1 else fpExpGo a e

/-- Floor of the base-2 logarithm, for the scaled range `a < 2^64`. -/
def fpExp (a : ℕ) : ℕ := fpExpGo a 63

/-- Round a (positive, scaled-by-`2^59`) value to the binary64 grid: the
significand keeps 53 bits, so the grid spacing is `2^(e-52)` where `e` is
the exponent of the leading bit; round to nearest, ties to even. -/
def fpRound (a : ℕ) : ℕ :=
  let e := fpExp a
  if e ≤ 52 then a
  else
    let g := 2 ^ (e - 52)
    let q := a / g
    let r := a % g
    if 2 * r < g then q * g
    else if g < 2 * r then q * g + g
    else if q % 2 = 0 then q * g else q * g + g

/-- One binary64 time step: the correctly rounded result of `t + 0.01` in
doubles. -/
def tStep (a : ℕ) : ℕ := fpRound (a + DT_FP)

/-- The binary64 time accumulator after `n` steps (scaled by `2^59`);
reproduces the JavaScript sequence `0, 0.01, 0.02, …` bit-for-bit. -/
def tFP : ℕ → ℕ
  | 0 => 0
  | n + 1 => tStep (tFP n)

/-- Flight state with the time accumulator in binary64 (scaled `ℕ`); the
other components stay in exact ℚ as in `FlightState`.  `derivatives` never
reads `t`, so the physics is unchanged. -/
structure FlightStateFP where
  x : ℚ
  y : ℚ
  z : ℚ
  vx : ℚ
  vy : ℚ
  vz : ℚ
  roll : ℚ
  spin : ℚ
  t : ℕ
deriving DecidableEq

/-- Forget the binary64 time (unused by `derivatives`). -/
def toFlightState (s : FlightStateFP) : FlightState :=
  ⟨s.x, s.y, s.z, s.vx, s.vy, s.vz, s.roll, s.spin, 0⟩

/-- `rk4Step` with the binary64 time accumulator: identical physics (the
four derivative stages never read `t`), position by forward Euler, and
`t' = fpRound (t + DT_FP)`, the correctly rounded double sum. -/
def rk4StepFP (M : MathOps) (s : FlightStateFP) (disc : Disc) (wind : WindVec) :
    FlightStateFP :=
  let sq := toFlightState s
  let k1 := derivatives M sq disc wind
  let s2 := { sq with
    vx := sq.vx + k1.dvx * simDt / 2, vy := sq.vy + k1.dvy * simDt / 2,
    vz := sq.vz + k1.dvz * simDt / 2,
    roll := sq.roll + k1.droll * simDt / 2, spin := sq.spin + k1.dspin * simDt / 2 }
  let k2 := derivatives M s2 disc wind
  let s3 := { sq with
    vx := sq.vx + k2.dvx * simDt / 2, vy := sq.vy + k2.dvy * simDt / 2,
    vz := sq.vz + k2.dvz * simDt / 2,
    roll := sq.roll + k2.droll * simDt / 2, spin := sq.spin + k2.dspin * simDt / 2 }
  let k3 := derivatives M s3 disc wind
  let s4 := { sq with
    vx := sq.vx + k3.dvx * simDt, vy := sq.vy + k3.dvy * simDt,
    vz := sq.vz + k3.dvz * simDt,
    roll := sq.roll + k3.droll * simDt, spin := sq.spin + k3.dspin * simDt }
  let k4 := derivatives M s4 disc wind
  { x := s.x + s.vx * simDt
    y := s.y + s.vy * simDt
    z := s.z + s.vz * simDt
    vx := s.vx + (k1.dvx + 2 * k2.dvx + 2 * k3.dvx + k4.dvx) * simDt / 6
    vy := s.vy + (k1.dvy + 2 * k2.dvy + 2 * k3.dvy + k4.dvy) * simDt / 6
    vz := s.vz + (k1.dvz + 2 * k2.dvz + 2 * k3.dvz + k4.dvz) * simDt / 6
    roll := s.roll + (k1.droll + 2 * k2.droll + 2 * k3.droll + k4.droll) * simDt / 6
    spin := s.spin + (k1.dspin + 2 * k2.dspin + 2 * k3.dspin + k4.dspin) * simDt / 6
    t := fpRound (s.t + DT_FP) }

/-- Loop locals of `simulateDiscFlight` with the binary64 time. -/
structure LoopStateFP where
  state : FlightStateFP
  points : List Point
  maxHeight : ℚ
  landingIndex : ℤ
  stepCount : ℕ
  done : Bool
deriving DecidableEq

/-- The `while` body with the binary64 time: the landing guard compares
`t > 0.3` on doubles (`C03_FP < t` on the scaled grid). -/
def simStepBodyFP (M : MathOps) (disc : Disc) (wind : WindVec) (ground : ℚ → ℚ → ℚ)
    (acc : LoopStateFP) : LoopStateFP :=
  let state := rk4StepFP M acc.state disc wind
  let stepCount := acc.stepCount + 1
  let groundY := ground state.x state.z
  if state.y ≤ groundY ∧ C03_FP < state.t then
    let prev := acc.points.getD (acc.points.length - 1) ⟨0, 0, 0⟩
    let tFrac := (groundY - prev.y) / (state.y - prev.y)
    let landX := prev.x + (state.x - prev.x) * tFrac
    let landZ := prev.z + (state.z - prev.z) * tFrac
    let pts := acc.points ++ [⟨landX, groundY, landZ⟩]
    { state := state, points := pts, maxHeight := acc.maxHeight,
      landingIndex := (pts.length : ℤ) - 1, stepCount := stepCount, done := true }
  else if stepCount % sampleEvery = 0 then
    { state := state, points := acc.points ++ [⟨state.x, state.y, state.z⟩],
      maxHeight := max acc.maxHeight state.y, landingIndex := acc.landingIndex,
      stepCount := stepCount, done := acc.done }
  else
    { state := state, points := acc.points, maxHeight := acc.maxHeight,
      landingIndex := acc.landingIndex, stepCount := stepCount, done := acc.done }

/-- The `while (state.t < maxTime)` loop with the binary64 time: the guard
`t < 12` on doubles is exactly `t < MAXT_FP` on the scaled grid. -/
def simLoopFP (M : MathOps) (disc : Disc) (wind : WindVec) (ground : ℚ → ℚ → ℚ) :
    ℕ → LoopStateFP → LoopStateFP
  | 0, acc => acc
  | fuel + 1, acc =>
    if acc.done = false ∧ acc.state.t < MAXT_FP then
      simLoopFP M disc wind ground fuel (simStepBodyFP M disc wind ground acc)
    else acc

/-- Loop entry state with the binary64 time (`t = 0` exactly). -/
def initLoopStateFP (M : MathOps) (disc : Disc) (throwParams : ThrowParams) :
    LoopStateFP :=
  let v0 := speedToVelocity disc.speed throwParams.power
  let aimRad := throwParams.aimAngle * DEG_TO_RAD M
  let noseRad := throwParams.noseAngle * DEG_TO_RAD M
  let vHorizontal := v0 * M.cos noseRad
  let vx := vHorizontal * M.sin aimRad
  let vy := v0 * M.sin noseRad
  let vz := vHorizontal * M.cos aimRad
  let initialSpin := 800 + disc.speed * 60
  let state : FlightStateFP :=
    ⟨0, 2, 0, vx, vy, vz, throwParams.releaseAngle, initialSpin, 0⟩
  { state := state, points := [⟨state.x, state.y, state.z⟩], maxHeight := state.y,
    landingIndex := -1, stepCount := 0, done := false }

/-- The whole loop of `simulateDiscFlight` with binary64 time, run with
explicit fuel. -/
def simRunFP (M : MathOps) (disc : Disc) (throwParams : ThrowParams) (wind : Wind)
    (ground : ℚ → ℚ → ℚ) (fuel : ℕ) : LoopStateFP :=
  simLoopFP M disc (windVecOf M wind) ground fuel (initLoopStateFP M disc throwParams)

theorem simRunFP_eq (M : MathOps) (disc : Disc) (tp : ThrowParams) (w : Wind)
    (g : ℚ → ℚ → ℚ) (fuel : ℕ) :
    simRunFP M disc tp w g fuel =
      simLoopFP M disc (windVecOf M w) g fuel (initLoopStateFP M disc tp) := rfl

/-! Arithmetic facts about the binary64 time sequence. -/

theorem fpExpGo_le (a : ℕ) : ∀ k, fpExpGo a k ≤ k := by
  intro k
  induction k with
  | zero => exact le_rfl
  | succ n ih =>
    unfold fpExpGo
    split
    · exact le_rfl
    · exact ih.trans (Nat.le_succ n)

/-- The rounding moves a value by less than one grid cell, and the grid
spacing is at most `2^11` on the 64-bit scaled range. -/
theorem fpRound_near (a : ℕ) : a ≤ fpRound a + 2 ^ 11 ∧ fpRound a ≤ a + 2 ^ 11 := by
  unfold fpRound
  by_cases he : fpExp a ≤ 52
  · rw [if_pos he]
    omega
  · rw [if_neg he]
    have he63 : fpExp a ≤ 63 := fpExpGo_le a 63
    have hg : 2 ^ (fpExp a - 52) ≤ 2 ^ 11 := Nat.pow_le_pow_right (by omega) (by omega)
    have hgpos : 0 < 2 ^ (fpExp a - 52) := Nat.pos_pow_of_pos _ (by omega)
    have hdm : a / 2 ^ (fpExp a - 52) * 2 ^ (fpExp a - 52) + a % 2 ^ (fpExp a - 52) = a := by
      rw [Nat.mul_comm]
      exact Nat.div_add_mod a _
    have hml : a % 2 ^ (fpExp a - 52) < 2 ^ (fpExp a - 52) := Nat.mod_lt a hgpos
    have hle : a / 2 ^ (fpExp a - 52) * 2 ^ (fpExp a - 52) ≤ a := Nat.le.intro hdm
    dsimp only
    split
    · constructor
      · omega
      · exact hle.trans (Nat.le_add_right a _)
    · split
      · constructor
        · omega
        · omega
      · split
        · constructor
          · omega
          · exact hle.trans (Nat.le_add_right a _)
        · constructor
          · omega
          · omega

/-- Each binary64 time step strictly increases the accumulator (the step
`0.01` dwarfs the worst-case rounding error). -/
theorem tStep_lt (a : ℕ) : a < tStep a := by
  have h := (fpRound_near (a + DT_FP)).1
  unfold tStep
  have hd : 2 ^ 11 < DT_FP := by decide
  omega

theorem tFP_mono_le {m n : ℕ} (h : m ≤ n) : tFP m ≤ tFP n := by
  obtain ⟨k, rfl⟩ := Nat.exists_eq_add_of_le h
  induction k with
  | zero => exact le_rfl
  | succ j ih =>
    have : tFP (m + j) ≤ tFP (m + j + 1) := le_of_lt (tStep_lt (tFP (m + j)))
    exact (ih (Nat.le_add_right m j)).trans this

theorem tFP_eq_iterate : ∀ n, tFP n = tStep^[n] 0 := by
  intro n
  induction n with
  | zero => rfl
  | succ n ih =>
    rw [Function.iterate_succ_apply', ← ih]
    rfl

/-! Kernel evaluation of the binary64 time sequence, in 100-step chunks
(the values agree bit-for-bit with the JavaScript double sequence). -/

set_option maxRecDepth 4000

theorem tChunk1 : tStep^[100] 0 = 576460752303423872 := by decide

theorem tChunk2 : tStep^[100] 576460752303423872 = 1152921504606847744 := by decide

theorem tChunk3 : tStep^[100] 1152921504606847744 = 1729382256910258944 := by decide

theorem tChunk4 : tStep^[100] 1729382256910258944 = 2305843009213670144 := by decide

theorem tChunk5 : tStep^[100] 2305843009213670144 = 2882303761517081600 := by decide

theorem tChunk6 : tStep^[100] 2882303761517081600 = 3458764513820492800 := by decide

theorem tChunk7 : tStep^[100] 3458764513820492800 = 4035225266123904000 := by decide

theorem tChunk8 : tStep^[100] 4035225266123904000 = 4611686018427315200 := by decide

theorem tChunk9 : tStep^[100] 4611686018427315200 = 5188146770730726400 := by decide

theorem tChunk10 : tStep^[100] 5188146770730726400 = 5764607523034137600 := by decide

theorem tChunk11 : tStep^[100] 5764607523034137600 = 6341068275337548800 := by decide

theorem tChunk12 : tStep^[100] 6341068275337548800 = 6917529027640960000 := by decide

theorem tChunk13 : tStep 6917529027640960000 = 6923293635163994112 := by decide

theorem tFP_chunk_step (m : ℕ) (c c2 : ℕ) (h : tFP m = c) (h2 : tStep^[100] c = c2) :
    tFP (m + 100) = c2 := by
  rw [tFP_eq_iterate, show m + 100 = 100 + m by omega, Function.iterate_add_apply,
    ← tFP_eq_iterate, h, h2]

/-- After 1200 steps the binary64 accumulator is `11.999999999999789`
(scaled), still below 12: the source loop will run a 1201st step. -/
theorem tFP_1200_eq : tFP 1200 = 6917529027640960000 := by
  have h1 := tFP_chunk_step 0 _ _ rfl tChunk1
  have h2 := tFP_chunk_step 100 _ _ h1 tChunk2
  have h3 := tFP_chunk_step 200 _ _ h2 tChunk3
  have h4 := tFP_chunk_step 300 _ _ h3 tChunk4
  have h5 := tFP_chunk_step 400 _ _ h4 tChunk5
  have h6 := tFP_chunk_step 500 _ _ h5 tChunk6
  have h7 := tFP_chunk_step 600 _ _ h6 tChunk7
  have h8 := tFP_chunk_step 700 _ _ h7 tChunk8
  have h9 := tFP_chunk_step 800 _ _ h8 tChunk9
  have h10 := tFP_chunk_step 900 _ _ h9 tChunk10
  have h11 := tFP_chunk_step 1000 _ _ h10 tChunk11
  exact tFP_chunk_step 1100 _ _ h11 tChunk12

/-- After the 1201st step the accumulator is `12.009999999999788`
(scaled), above 12. -/
theorem tFP_1201_eq : tFP 1201 = 6923293635163994112 := by
  have : tFP 1201 = tStep (tFP 1200) := rfl
  rw [this, tFP_1200_eq]
  exact tChunk13

theorem tFP_1200_lt : tFP 1200 < MAXT_FP := by
  rw [tFP_1200_eq]
  decide

theorem tFP_1201_gt : MAXT_FP < tFP 1201 := by
  rw [tFP_1201_eq]
  decide

theorem tFP_1201_le : tFP 1201 ≤ MAXT_FP + DT_FP := by
  rw [tFP_1201_eq]
  decide

/-! Invariants of the binary64-time loop. -/

/-- The binary64 time equals the accumulator sequence at the step counter,
and the counter never passes 1201 (the first index whose time is ≥ 12). -/
def StepInvFP (acc : LoopStateFP) : Prop :=
  acc.state.t = tFP acc.stepCount ∧ acc.stepCount ≤ 1201

theorem simStepBodyFP_eq (M : MathOps) (disc : Disc) (wind : WindVec) (g : ℚ → ℚ → ℚ)
    (acc : LoopStateFP) :
    (∃ p, simStepBodyFP M disc wind g acc =
        { state := rk4StepFP M acc.state disc wind,
          points := acc.points ++ [p],
          maxHeight := acc.maxHeight,
          landingIndex := ((acc.points ++ [p]).length : ℤ) - 1,
          stepCount := acc.stepCount + 1, done := true }) ∨
      (∃ p, simStepBodyFP M disc wind g acc =
        { state := rk4StepFP M acc.state disc wind,
          points := acc.points ++ [p],
          maxHeight := max acc.maxHeight (rk4StepFP M acc.state disc wind).y,
          landingIndex := acc.landingIndex,
          stepCount := acc.stepCount + 1, done := acc.done }) ∨
      simStepBodyFP M disc wind g acc =
        { state := rk4StepFP M acc.state disc wind,
          points := acc.points, maxHeight := acc.maxHeight,
          landingIndex := acc.landingIndex,
          stepCount := acc.stepCount + 1, done := acc.done } := by
  simp only [simStepBodyFP]
  split
  · exact Or.inl ⟨_, rfl⟩
  · split
    · exact Or.inr (Or.inl ⟨_, rfl⟩)
    · exact Or.inr (Or.inr rfl)

theorem tStep_eq (a : ℕ) : tStep a = fpRound (a + DT_FP) := rfl

theorem tFP_succ (n : ℕ) : tFP (n + 1) = tStep (tFP n) := rfl

theorem rk4StepFP_t (M : MathOps) (s : FlightStateFP) (disc : Disc) (wind : WindVec) :
    (rk4StepFP M s disc wind).t = fpRound (s.t + DT_FP) := by
  simp only [rk4StepFP]

theorem simStepBodyFP_t_count (M : MathOps) (disc : Disc) (wind : WindVec)
    (g : ℚ → ℚ → ℚ) (acc : LoopStateFP) :
    (simStepBodyFP M disc wind g acc).state.t = fpRound (acc.state.t + DT_FP) ∧
      (simStepBodyFP M disc wind g acc).stepCount = acc.stepCount + 1 := by
  rcases simStepBodyFP_eq M disc wind g acc with ⟨p, h⟩ | ⟨p, h⟩ | h <;> rw [h] <;>
    exact ⟨rk4StepFP_t M acc.state disc wind, rfl⟩

/-- The body keeps the invariant whenever the loop guard let it run: the
guard `t < 12` together with `t = tFP stepCount` rules out
`stepCount = 1201`. -/
theorem simStepBodyFP_stepInv (M : MathOps) (disc : Disc) (wind : WindVec)
    (g : ℚ → ℚ → ℚ) (acc : LoopStateFP) (h : StepInvFP acc)
    (hrun : acc.state.t < MAXT_FP) : StepInvFP (simStepBodyFP M disc wind g acc) := by
  obtain ⟨ht, hsc⟩ := h
  have hne : acc.stepCount ≠ 1201 := by
    intro heq
    rw [ht, heq] at hrun
    exact absurd hrun (not_lt.mpr (le_of_lt tFP_1201_gt))
  obtain ⟨ht', hc'⟩ := simStepBodyFP_t_count M disc wind g acc
  constructor
  · rw [ht', hc', ht, tFP_succ, tStep_eq]
  · omega

theorem simLoopFP_succ (M : MathOps) (disc : Disc) (wind : WindVec) (g : ℚ → ℚ → ℚ)
    (fuel : ℕ) (acc : LoopStateFP) :
    simLoopFP M disc wind g (fuel + 1) acc =
      if acc.done = false ∧ acc.state.t < MAXT_FP then
        simLoopFP M disc wind g fuel (simStepBodyFP M disc wind g acc)
      else acc := rfl

theorem simLoopFP_of_stop (M : MathOps) (disc : Disc) (wind : WindVec) (g : ℚ → ℚ → ℚ)
    (acc : LoopStateFP) (h : ¬(acc.done = false ∧ acc.state.t < MAXT_FP)) (fuel : ℕ) :
    simLoopFP M disc wind g fuel acc = acc := by
  cases fuel with
  | zero => rfl
  | succ n => rw [simLoopFP_succ, if_neg h]

/-- Fuel beyond 1201 remaining steps does not change the binary64-time
loop: the guard fails no later than step 1201. -/
theorem simLoopFP_add_stable (M : MathOps) (disc : Disc) (wind : WindVec)
    (g : ℚ → ℚ → ℚ) :
    ∀ (fuel extra : ℕ) (acc : LoopStateFP), StepInvFP acc →
      1201 ≤ acc.stepCount + fuel →
      simLoopFP M disc wind g (fuel + extra) acc = simLoopFP M disc wind g fuel acc := by
  intro fuel
  induction fuel with
  | zero =>
    intro extra acc hinv hle
    obtain ⟨ht, hsc⟩ := hinv
    have hstop : ¬(acc.done = false ∧ acc.state.t < MAXT_FP) := by
      rintro ⟨-, hlt⟩
      have : acc.stepCount = 1201 := by omega
      rw [ht, this] at hlt
      exact absurd hlt (not_lt.mpr (le_of_lt tFP_1201_gt))
    rw [Nat.zero_add, simLoopFP_of_stop M disc wind g acc hstop extra]
    rfl
  | succ n ih =>
    intro extra acc hinv hle
    by_cases hg : acc.done = false ∧ acc.state.t < MAXT_FP
    · have hshift : n + 1 + extra = (n + extra) + 1 := by omega
      rw [hshift, simLoopFP_succ, simLoopFP_succ, if_pos hg, if_pos hg]
      refine ih extra _ (simStepBodyFP_stepInv M disc wind g acc hinv hg.2) ?_
      rw [(simStepBodyFP_t_count M disc wind g acc).2]
      omega
    · rw [simLoopFP_of_stop M disc wind g acc hg, simLoopFP_of_stop M disc wind g acc hg]

theorem simLoopFP_inv (M : MathOps) (disc : Disc) (wind : WindVec) (g : ℚ → ℚ → ℚ) :
    ∀ (fuel : ℕ) (acc : LoopStateFP), StepInvFP acc →
      StepInvFP (simLoopFP M disc wind g fuel acc) := by
  intro fuel
  induction fuel with
  | zero => exact fun acc h => h
  | succ n ih =>
    intro acc h
    by_cases hg : acc.done = false ∧ acc.state.t < MAXT_FP
    · rw [simLoopFP_succ, if_pos hg]
      exact ih _ (simStepBodyFP_stepInv M disc wind g acc h hg.2)
    · rw [simLoopFP_succ, if_neg hg]
      exact h

theorem initLoopStateFP_stepInv (M : MathOps) (disc : Disc) (tp : ThrowParams) :
    StepInvFP (initLoopStateFP M disc tp) :=
  ⟨rfl, Nat.zero_le 1201⟩

/-! A concrete run that realises the 1201st step.

Under the all-zero interpretation `trivMath`, `Math.sqrt` returns 0, so the
relative speed is always below 0.5 and every derivative evaluation is free
fall.  The trajectory is then in closed form: `vy = -g·dt·n` and
`y = 2 - g·dt²·n(n-1)/2`, which stays above −710 m for `n ≤ 1201`, so a
ground plane at −1000 m is never hit and the loop is limited by the time
ceiling alone. -/

theorem derivatives_trivMath (s : FlightState) (disc : Disc) (wind : WindVec) :
    derivatives trivMath s disc wind =
      { dvx := 0, dvy := -GRAVITY, dvz := 0, droll := 0, dspin := 0 } := by
  have h : relSpeedOf trivMath s wind < 0.5 := by norm_num [relSpeedOf, trivMath]
  simp only [derivatives]
  rw [if_pos h]

theorem rk4StepFP_trivMath (s : FlightStateFP) (disc : Disc) (wind : WindVec) :
    (rk4StepFP trivMath s disc wind).y = s.y + s.vy * simDt ∧
      (rk4StepFP trivMath s disc wind).vy = s.vy - GRAVITY * simDt := by
  constructor
  · simp only [rk4StepFP]
  · simp only [rk4StepFP, derivatives_trivMath]
    ring

/-- Invariant of the free-fall run over the flat `-1000` ground: the loop
never breaks, time follows the binary64 sequence, and height and vertical
speed are in closed form. -/
def ConcInv (acc : LoopStateFP) : Prop :=
  acc.done = false ∧ acc.state.t = tFP acc.stepCount ∧ acc.stepCount ≤ 1201 ∧
    acc.state.vy = -(GRAVITY * simDt) * (acc.stepCount : ℚ) ∧
    acc.state.y = 2 - GRAVITY * simDt ^ 2 *
      ((acc.stepCount : ℚ) * ((acc.stepCount : ℚ) - 1)) / 2

theorem concInv_body (disc : Disc) (wind : WindVec) (acc : LoopStateFP)
    (h : ConcInv acc) (hsc : acc.stepCount ≤ 1200) :
    ConcInv (simStepBodyFP trivMath disc wind (fun _ _ => (-1000 : ℚ)) acc) ∧
      (simStepBodyFP trivMath disc wind (fun _ _ => (-1000 : ℚ)) acc).stepCount =
        acc.stepCount + 1 := by
  obtain ⟨hdone, ht, -, hvy, hy⟩ := h
  obtain ⟨hy', hvy'⟩ := rk4StepFP_trivMath acc.state disc wind
  have hscq : ((acc.stepCount : ℚ)) ≤ 1200 := by exact_mod_cast hsc
  have hscq0 : (0 : ℚ) ≤ ((acc.stepCount : ℚ)) := Nat.cast_nonneg _
  have hybound : ¬((rk4StepFP trivMath acc.state disc wind).y ≤ (-1000 : ℚ)) := by
    rw [hy', hy, hvy]
    have hG : GRAVITY = 981 / 100 := by norm_num [GRAVITY]
    have hd : simDt = 1 / 100 := by norm_num [simDt]
    rw [hG, hd]
    push_neg
    nlinarith [mul_nonneg (by linarith : (0:ℚ) ≤ 1200 - (acc.stepCount : ℚ))
      (by linarith : (0:ℚ) ≤ (acc.stepCount : ℚ) + 1)]
  simp only [simStepBodyFP]
  rw [if_neg fun hc => hybound hc.1]
  split
  · refine ⟨⟨hdone, ?_, ?_, ?_, ?_⟩, rfl⟩
    · show (rk4StepFP trivMath acc.state disc wind).t = tFP (acc.stepCount + 1)
      rw [rk4StepFP_t, ht, tFP_succ, tStep_eq]
    · show acc.stepCount + 1 ≤ 1201
      omega
    · show (rk4StepFP trivMath acc.state disc wind).vy =
        -(GRAVITY * simDt) * ((acc.stepCount + 1 : ℕ) : ℚ)
      rw [hvy', hvy]
      push_cast
      ring
    · show (rk4StepFP trivMath acc.state disc wind).y =
        2 - GRAVITY * simDt ^ 2 *
          (((acc.stepCount + 1 : ℕ) : ℚ) * (((acc.stepCount + 1 : ℕ) : ℚ) - 1)) / 2
      rw [hy', hy, hvy]
      push_cast
      ring
  · refine ⟨⟨hdone, ?_, ?_, ?_, ?_⟩, rfl⟩
    · show (rk4StepFP trivMath acc.state disc wind).t = tFP (acc.stepCount + 1)
      rw [rk4StepFP_t, ht, tFP_succ, tStep_eq]
    · show acc.stepCount + 1 ≤ 1201
      omega
    · show (rk4StepFP trivMath acc.state disc wind).vy =
        -(GRAVITY * simDt) * ((acc.stepCount + 1 : ℕ) : ℚ)
      rw [hvy', hvy]
      push_cast
      ring
    · show (rk4StepFP trivMath acc.state disc wind).y =
        2 - GRAVITY * simDt ^ 2 *
          (((acc.stepCount + 1 : ℕ) : ℚ) * (((acc.stepCount + 1 : ℕ) : ℚ) - 1)) / 2
      rw [hy', hy, hvy]
      push_cast
      ring

/-- The free-fall run takes every step the time guard allows: with enough
fuel it executes exactly 1201 integration steps and ends at the binary64
time `tFP 1201 ≈ 12.01 s`. -/
theorem concrete_run (disc : Disc) (wind : WindVec) :
    ∀ (fuel : ℕ) (acc : LoopStateFP), ConcInv acc → 1201 ≤ acc.stepCount + fuel →
      (simLoopFP trivMath disc wind (fun _ _ => (-1000 : ℚ)) fuel acc).stepCount = 1201 ∧
        (simLoopFP trivMath disc wind (fun _ _ => (-1000 : ℚ)) fuel acc).state.t =
          tFP 1201 := by
  intro fuel
  induction fuel with
  | zero =>
    intro acc h hge
    have hsc : acc.stepCount = 1201 := by
      have := h.2.2.1
      omega
    refine ⟨hsc, ?_⟩
    show acc.state.t = tFP 1201
    rw [h.2.1, hsc]
  | succ n ih =>
    intro acc h hge
    by_cases hstop : acc.stepCount = 1201
    · have hguard : ¬(acc.done = false ∧ acc.state.t < MAXT_FP) := by
        rintro ⟨-, hlt⟩
        rw [h.2.1, hstop] at hlt
        exact absurd hlt (not_lt.mpr (le_of_lt tFP_1201_gt))
      rw [simLoopFP_of_stop _ _ _ _ _ hguard]
      exact ⟨hstop, by rw [h.2.1, hstop]⟩
    · have hsc200 : acc.stepCount ≤ 1200 := by
        have := h.2.2.1
        omega
      have hguard : acc.done = false ∧ acc.state.t < MAXT_FP := by
        refine ⟨h.1, ?_⟩
        rw [h.2.1]
        exact lt_of_le_of_lt (tFP_mono_le hsc200) tFP_1200_lt
      rw [simLoopFP_succ, if_pos hguard]
      obtain ⟨hinv', hcount'⟩ := concInv_body disc wind acc h hsc200
      refine ih _ hinv' ?_
      rw [hcount']
      omega

/-! Theorems. -/

/-- C1: `simulateDiscFlight` is deterministic — two calls with identical
disc, throw parameters, wind, and (pure) ground-elevation function return
identical `SimulationResult`s: the same point sequence, `landingIndex`,
`maxHeight` and `totalDistance`.  The embedded engine is a pure function of
its arguments (there is no hidden state or randomness in the source), so
both calls denote the same value. -/
theorem simulate_deterministic (M : MathOps) (disc : Disc) (throwParams : ThrowParams)
    (wind : Wind) (ground : ℚ → ℚ → ℚ) :
    (simulateDiscFlight M disc throwParams wind ground).points =
        (simulateDiscFlight M disc throwParams wind ground).points ∧
      (simulateDiscFlight M disc throwParams wind ground).landingIndex =
        (simulateDiscFlight M disc throwParams wind ground).landingIndex ∧
      (simulateDiscFlight M disc throwParams wind ground).maxHeight =
        (simulateDiscFlight M disc throwParams wind ground).maxHeight ∧
      (simulateDiscFlight M disc throwParams wind ground).totalDistance =
        (simulateDiscFlight M disc throwParams wind ground).totalDistance :=
  ⟨rfl, rfl, rfl, rfl⟩

/-- C2: for every simulate call the returned point sequence is non-empty
and its first element is the release point `{x: 0, y: 2, z: 0}`. -/
theorem simulate_release_point (M : MathOps) (disc : Disc) (throwParams : ThrowParams)
    (wind : Wind) (ground : ℚ → ℚ → ℚ) :
    (simulateDiscFlight M disc throwParams wind ground).points.head? = some ⟨0, 2, 0⟩ := by
  have h := (simLoop_landInv M disc (windVecOf M wind) ground 1201
    (initLoopState M disc throwParams) (initLoopState_landInv M disc throwParams)).2
  show (simRun M disc throwParams wind ground 1201).points.head? = some ⟨0, 2, 0⟩
  rw [simRun, h]
  rfl

/-- C4 counterexample: the claimed bound (at most 1200 steps, time never
above 12 s) is false of the program.  The source accumulates `t` in IEEE
binary64, and after 1200 additions of `0.01` the accumulator is
`11.999999999999789 < 12`, so the `while` runs a 1201st step ending at
`12.009999999999788 > 12`.  At the concrete input below — the all-zero
interpretation of the `Math` primitives (free fall throughout) and a flat
ground at −1000 m that is never reached — the binary64-time loop executes
1201 > 1200 integration steps and its final simulated time exceeds the
12-second ceiling. -/
theorem simulate_time_overrun_cex :
    1200 < (simRunFP trivMath ⟨12, 5, -1, 3⟩ ⟨80, 0, 0, 12⟩ ⟨0, 0⟩
        (fun _ _ => (-1000 : ℚ)) 1202).stepCount ∧
      MAXT_FP < (simRunFP trivMath ⟨12, 5, -1, 3⟩ ⟨80, 0, 0, 12⟩ ⟨0, 0⟩
        (fun _ _ => (-1000 : ℚ)) 1202).state.t := by
  have hinit : ConcInv (initLoopStateFP trivMath ⟨12, 5, -1, 3⟩ ⟨80, 0, 0, 12⟩) := by
    refine ⟨rfl, rfl, Nat.zero_le 1201, ?_, ?_⟩
    · show speedToVelocity 12 80 * trivMath.sin (12 * DEG_TO_RAD trivMath) =
        -(GRAVITY * simDt) * ((0 : ℕ) : ℚ)
      norm_num [trivMath]
    · show (2 : ℚ) = 2 - GRAVITY * simDt ^ 2 * (((0 : ℕ) : ℚ) * (((0 : ℕ) : ℚ) - 1)) / 2
      norm_num
  obtain ⟨hsc, ht⟩ := concrete_run ⟨12, 5, -1, 3⟩ (windVecOf trivMath ⟨0, 0⟩) 1202
    (initLoopStateFP trivMath ⟨12, 5, -1, 3⟩ ⟨80, 0, 0, 12⟩) hinit (by omega)
  rw [simRunFP_eq]
  refine ⟨?_, ?_⟩
  · rw [hsc]
    omega
  · rw [ht]
    exact tFP_1201_gt

/-- C4 (amended): every simulate call terminates — with the time
accumulator in binary64 as in the source, the loop with any fuel of at
least 1202 gives the same result as with fuel 1202 (the `while` has
already reached an exit).  The loop runs at most 1201 fixed-size steps;
the final simulated time never exceeds 12 s by more than one `dt` step
(final `t ≤ 12 + dt ≈ 12.01 s`, in scaled units); and each integration
step advances the time accumulator by the correctly rounded double sum
`t + 0.01`, which strictly increases it. -/
theorem simulate_terminates_fp (M : MathOps) (disc : Disc) (throwParams : ThrowParams)
    (wind : Wind) (ground : ℚ → ℚ → ℚ) (fuel : ℕ) (hfuel : 1202 ≤ fuel) :
    simRunFP M disc throwParams wind ground fuel =
        simRunFP M disc throwParams wind ground 1202 ∧
      (simRunFP M disc throwParams wind ground 1202).stepCount ≤ 1201 ∧
      (simRunFP M disc throwParams wind ground 1202).state.t ≤ MAXT_FP + DT_FP ∧
      ∀ s : FlightStateFP,
        (rk4StepFP M s disc (windVecOf M wind)).t = fpRound (s.t + DT_FP) ∧
          s.t < (rk4StepFP M s disc (windVecOf M wind)).t := by
  have hinv := simLoopFP_inv M disc (windVecOf M wind) ground 1202
    (initLoopStateFP M disc throwParams) (initLoopStateFP_stepInv M disc throwParams)
  rw [← simRunFP_eq] at hinv
  refine ⟨?_, hinv.2, ?_, ?_⟩
  · show simLoopFP M disc (windVecOf M wind) ground fuel
        (initLoopStateFP M disc throwParams) =
      simLoopFP M disc (windVecOf M wind) ground 1202 (initLoopStateFP M disc throwParams)
    have hsplit : fuel = 1202 + (fuel - 1202) := by omega
    rw [hsplit]
    exact simLoopFP_add_stable M disc (windVecOf M wind) ground 1202 (fuel - 1202)
      (initLoopStateFP M disc throwParams) (initLoopStateFP_stepInv M disc throwParams)
      (by omega)
  · rw [hinv.1]
    exact (tFP_mono_le hinv.2).trans tFP_1201_le
  · intro s
    refine ⟨rk4StepFP_t M s disc (windVecOf M wind), ?_⟩
    rw [rk4StepFP_t]
    have h := (fpRound_near (s.t + DT_FP)).1
    have hd : 2 ^ 11 < DT_FP := by decide
    omega

/-- C4 witness: at a concrete disc, throw, wind, flat ground and fuel 1203
the hypothesis `1202 ≤ 1203` holds and the amended theorem applies. -/
theorem simulate_terminates_fp_witness :
    1202 ≤ 1203 ∧
      (simRunFP trivMath ⟨12, 5, -1, 3⟩ ⟨80, 0, 0, 12⟩ ⟨0, 0⟩ (fun _ _ => 0) 1203 =
          simRunFP trivMath ⟨12, 5, -1, 3⟩ ⟨80, 0, 0, 12⟩ ⟨0, 0⟩ (fun _ _ => 0) 1202 ∧
        (simRunFP trivMath ⟨12, 5, -1, 3⟩ ⟨80, 0, 0, 12⟩ ⟨0, 0⟩
          (fun _ _ => 0) 1202).stepCount ≤ 1201 ∧
        (simRunFP trivMath ⟨12, 5, -1, 3⟩ ⟨80, 0, 0, 12⟩ ⟨0, 0⟩
          (fun _ _ => 0) 1202).state.t ≤ MAXT_FP + DT_FP ∧
        ∀ s : FlightStateFP,
          (rk4StepFP trivMath s ⟨12, 5, -1, 3⟩ (windVecOf trivMath ⟨0, 0⟩)).t =
              fpRound (s.t + DT_FP) ∧
            s.t < (rk4StepFP trivMath s ⟨12, 5, -1, 3⟩ (windVecOf trivMath ⟨0, 0⟩)).t) :=
  ⟨by decide,
    simulate_terminates_fp trivMath ⟨12, 5, -1, 3⟩ ⟨80, 0, 0, 12⟩ ⟨0, 0⟩ (fun _ _ => 0)
      1203 (by decide)⟩

/-- C9: for every simulate call, `landingIndex` equals
`points.length - 1` — whether or not ground contact occurred — and
`totalDistance` is the horizontal distance of that final point from the
origin. -/
theorem simulate_landingIndex_last (M : MathOps) (disc : Disc) (throwParams : ThrowParams)
    (wind : Wind) (ground : ℚ → ℚ → ℚ) :
    ∃ p, (simulateDiscFlight M disc throwParams wind ground).points.getLast? = some p ∧
      (simulateDiscFlight M disc throwParams wind ground).landingIndex =
        ((simulateDiscFlight M disc throwParams wind ground).points.length : ℤ) - 1 ∧
      (simulateDiscFlight M disc throwParams wind ground).totalDistance =
        M.sqrt (p.x ^ 2 + p.z ^ 2) := by
  obtain ⟨hne, hdt, hdf⟩ := (simLoop_landInv M disc (windVecOf M wind) ground 1201
    (initLoopState M disc throwParams) (initLoopState_landInv M disc throwParams)).1
  rw [← simRun_eq] at hne hdt hdf
  have hlen : 1 ≤ (simRun M disc throwParams wind ground 1201).points.length :=
    List.length_pos.mpr hne
  have hli : (if (simRun M disc throwParams wind ground 1201).landingIndex < 0 then
        ((simRun M disc throwParams wind ground 1201).points.length : ℤ) - 1
      else (simRun M disc throwParams wind ground 1201).landingIndex) =
      ((simRun M disc throwParams wind ground 1201).points.length : ℤ) - 1 := by
    cases hd : (simRun M disc throwParams wind ground 1201).done
    · rw [hdf hd]
      rw [if_pos (by norm_num)]
    · rw [hdt hd]
      rw [if_neg (by omega)]
  have htn : ((((simRun M disc throwParams wind ground 1201).points.length : ℤ) - 1).toNat) =
      (simRun M disc throwParams wind ground 1201).points.length - 1 := by omega
  refine ⟨(simRun M disc throwParams wind ground 1201).points.getD
    ((simRun M disc throwParams wind ground 1201).points.length - 1) ⟨0, 0, 0⟩, ?_, ?_, ?_⟩
  · exact getLast?_eq_getD _ _ hne
  · show (if (simRun M disc throwParams wind ground 1201).landingIndex < 0 then
        ((simRun M disc throwParams wind ground 1201).points.length : ℤ) - 1
      else (simRun M disc throwParams wind ground 1201).landingIndex) =
      ((simRun M disc throwParams wind ground 1201).points.length : ℤ) - 1
    exact hli
  · show M.sqrt
      (((simRun M disc throwParams wind ground 1201).points.getD
          (if (simRun M disc throwParams wind ground 1201).landingIndex < 0 then
            ((simRun M disc throwParams wind ground 1201).points.length : ℤ) - 1
          else (simRun M disc throwParams wind ground 1201).landingIndex).toNat
          ⟨0, 0, 0⟩).x ^ 2 +
        ((simRun M disc throwParams wind ground 1201).points.getD
          (if (simRun M disc throwParams wind ground 1201).landingIndex < 0 then
            ((simRun M disc throwParams wind ground 1201).points.length : ℤ) - 1
          else (simRun M disc throwParams wind ground 1201).landingIndex).toNat
          ⟨0, 0, 0⟩).z ^ 2) = _
    rw [hli, htn]

/-- C3: in every integration step, position is advanced by explicit forward
Euler with the pre-step velocity (`x += vx·dt`), while velocity, roll and
spin are advanced by the RK4 weighted sum `(k1 + 2k2 + 2k3 + k4)/6 · dt`
over the four derivative-stage evaluations. -/
theorem rk4Step_structure (M : MathOps) (s : FlightState) (disc : Disc) (wind : WindVec)
    (dt : ℚ) :
    (rk4Step M s disc wind dt).x = s.x + s.vx * dt ∧
      (rk4Step M s disc wind dt).y = s.y + s.vy * dt ∧
      (rk4Step M s disc wind dt).z = s.z + s.vz * dt ∧
      (let k1 := derivatives M s disc wind
       let s2 := { s with
         vx := s.vx + k1.dvx * dt / 2, vy := s.vy + k1.dvy * dt / 2,
         vz := s.vz + k1.dvz * dt / 2,
         roll := s.roll + k1.droll * dt / 2, spin := s.spin + k1.dspin * dt / 2 }
       let k2 := derivatives M s2 disc wind
       let s3 := { s with
         vx := s.vx + k2.dvx * dt / 2, vy := s.vy + k2.dvy * dt / 2,
         vz := s.vz + k2.dvz * dt / 2,
         roll := s.roll + k2.droll * dt / 2, spin := s.spin + k2.dspin * dt / 2 }
       let k3 := derivatives M s3 disc wind
       let s4 := { s with
         vx := s.vx + k3.dvx * dt, vy := s.vy + k3.dvy * dt, vz := s.vz + k3.dvz * dt,
         roll := s.roll + k3.droll * dt, spin := s.spin + k3.dspin * dt }
       let k4 := derivatives M s4 disc wind
       (rk4Step M s disc wind dt).vx =
           s.vx + (k1.dvx + 2 * k2.dvx + 2 * k3.dvx + k4.dvx) * dt / 6 ∧
         (rk4Step M s disc wind dt).vy =
           s.vy + (k1.dvy + 2 * k2.dvy + 2 * k3.dvy + k4.dvy) * dt / 6 ∧
         (rk4Step M s disc wind dt).vz =
           s.vz + (k1.dvz + 2 * k2.dvz + 2 * k3.dvz + k4.dvz) * dt / 6 ∧
         (rk4Step M s disc wind dt).roll =
           s.roll + (k1.droll + 2 * k2.droll + 2 * k3.droll + k4.droll) * dt / 6 ∧
         (rk4Step M s disc wind dt).spin =
           s.spin + (k1.dspin + 2 * k2.dspin + 2 * k3.dspin + k4.dspin) * dt / 6) :=
  ⟨rfl, rfl, rfl, rfl, rfl, rfl, rfl, rfl⟩

/-- C5: whenever the wind-relative speed is below 0.5 m/s the derivative
function returns exactly the free-fall derivatives (`dvy = −g`, everything
else 0); and in the remaining branch — the only place the code divides by
the relative speed — the divisor is provably nonzero, so the degenerate
input is absorbed rather than propagated. -/
theorem derivatives_lowspeed_guard (M : MathOps) (s : FlightState) (disc : Disc)
    (wind : WindVec) :
    (relSpeedOf M s wind < 0.5 →
        derivatives M s disc wind =
          { dvx := 0, dvy := -GRAVITY, dvz := 0, droll := 0, dspin := 0 }) ∧
      (¬relSpeedOf M s wind < 0.5 → relSpeedOf M s wind ≠ 0) := by
  constructor
  · intro h
    simp only [derivatives]
    rw [if_pos h]
  · intro h hzero
    apply h
    rw [hzero]
    norm_num

/-- C5 witness: a state at rest relative to still air has relative speed
`sqrt 0`, which the trivial interpretation evaluates to `0 < 0.5`, and the
derivatives collapse to free fall. -/
theorem derivatives_lowspeed_guard_witness :
    relSpeedOf trivMath (createState 0 2 0 0 0 0 0 1000 0) ⟨0, 0⟩ < 0.5 ∧
      derivatives trivMath (createState 0 2 0 0 0 0 0 1000 0) ⟨12, 5, -1, 3⟩ ⟨0, 0⟩ =
        { dvx := 0, dvy := -GRAVITY, dvz := 0, droll := 0, dspin := 0 } :=
  ⟨by norm_num [relSpeedOf, trivMath, createState],
    (derivatives_lowspeed_guard trivMath (createState 0 2 0 0 0 0 0 1000 0) ⟨12, 5, -1, 3⟩
      ⟨0, 0⟩).1 (by norm_num [relSpeedOf, trivMath, createState])⟩

/-- C7: projecting the local origin point `(0,0,0)` returns exactly the
supplied origin for every origin and bearing — output longitude is
`origin.lng`, output latitude is `origin.lat`, output altitude is
`origin.elevation`. -/
theorem projectToGeodetic_origin_identity (M : MathOps) (origin : Geo) (bearingDeg : ℚ)
    (ps : List Point) :
    (trajectoryToWGS84 M (⟨0, 0, 0⟩ :: ps) origin bearingDeg).head? =
      some ⟨origin.lng, origin.lat, origin.elevation⟩ := by
  simp [trajectoryToWGS84]

/-- C8: `measure3DDistance` is symmetric in its endpoints for the distance
fields and antisymmetric for the elevation-change fields, for every
interpretation of `Math.sqrt` and `Math.cos`. -/
theorem measure_symmetric (M : MathOps) (a b : Geo) :
    (measure3DDistance M a b).distanceM = (measure3DDistance M b a).distanceM ∧
      (measure3DDistance M a b).distanceFt = (measure3DDistance M b a).distanceFt ∧
      (measure3DDistance M a b).elevChangeM = -(measure3DDistance M b a).elevChangeM ∧
      (measure3DDistance M a b).elevChangeFt = -(measure3DDistance M b a).elevChangeFt := by
  have havg : metersPerDegLng M ((b.lat + a.lat) / 2) =
      metersPerDegLng M ((a.lat + b.lat) / 2) := by
    rw [add_comm b.lat a.lat]
  have hsqrt : ∀ u v : ℚ,
      M.sqrt ((b.lng - a.lng) * u * ((b.lng - a.lng) * u) +
          (b.lat - a.lat) * v * ((b.lat - a.lat) * v) +
          (b.elevation - a.elevation) * (b.elevation - a.elevation)) =
        M.sqrt ((a.lng - b.lng) * u * ((a.lng - b.lng) * u) +
          (a.lat - b.lat) * v * ((a.lat - b.lat) * v) +
          (a.elevation - b.elevation) * (a.elevation - b.elevation)) := by
    intro u v
    congr 1
    ring
  simp only [measure3DDistance, havg, hsqrt]
  refine ⟨trivial, trivial, by ring, by ring⟩

/-- C6 counterexample: with a two-point input and `segments = 1` the claim
fails.  In the source, `t = i / (segments - 1)` evaluates `0 / 0 = NaN`;
the `NaN` array index reads `undefined` and the property access throws a
TypeError, so the call does not return a list of `segments` points (the
embedding returns `none`). -/
theorem smooth_segments_one_cex :
    2 ≤ ([⟨0, 0, 0⟩, ⟨1, 0, 0⟩] : List Point).length ∧
      smoothBezierCurve [⟨0, 0, 0⟩, ⟨1, 0, 0⟩] 1 = none := by
  constructor
  · simp
  · have hnot : ¬([⟨0, 0, 0⟩, ⟨1, 0, 0⟩] : List Point).length < 2 := by simp
    unfold smoothBezierCurve
    rw [if_neg hnot]
    have hp : smoothPoint [⟨0, 0, 0⟩, ⟨1, 0, 0⟩] 1 0 = none := by
      have hd : jsDiv ((0 : ℕ) : ℚ) (((1 : ℕ) : ℚ) - 1) = none := by
        unfold jsDiv
        rw [if_pos (by norm_num)]
      unfold smoothPoint
      rw [hd]
      rfl
    have hr : List.range 1 = [0] := rfl
    rw [hr]
    simp [optionMapList, hp]

/-- C6 (amended): `smooth(points, segments)` returns the input unchanged
when the input has fewer than 2 points; with at least 2 input points it
returns exactly `segments` output points for every `segments ≠ 1`, while
`segments = 1` makes the JavaScript call throw (see the counterexample). -/
theorem smooth_count (raw : List Point) (segments : ℕ) :
    (raw.length < 2 → smoothBezierCurve raw segments = some raw) ∧
      (2 ≤ raw.length → segments ≠ 1 →
        ∃ out, smoothBezierCurve raw segments = some out ∧ out.length = segments) := by
  constructor
  · intro h
    unfold smoothBezierCurve
    rw [if_pos h]
  · intro h2 hs1
    have hnot : ¬raw.length < 2 := by omega
    unfold smoothBezierCurve
    rw [if_neg hnot]
    rcases Nat.eq_zero_or_pos segments with h0 | hpos
    · subst h0
      exact ⟨[], rfl, rfl⟩
    · have hs2 : 2 ≤ segments := by omega
      have hall : ∀ a ∈ List.range segments, ∃ b, smoothPoint raw segments a = some b := by
        intro a ha
        rw [List.mem_range] at ha
        exact smoothPoint_isSome raw segments a h2 hs2 ha
      obtain ⟨out, hout⟩ := optionMapList_isSome (smoothPoint raw segments)
        (List.range segments) hall
      exact ⟨out, hout, by rw [optionMapList_length _ _ _ hout, List.length_range]⟩

/-- C6 witness: a three-point input smoothed to 4 segments satisfies both
hypotheses of the amended claim and yields exactly 4 output points. -/
theorem smooth_count_witness :
    2 ≤ ([⟨0, 0, 0⟩, ⟨1, 2, 3⟩, ⟨2, 1, 0⟩] : List Point).length ∧ (4 : ℕ) ≠ 1 ∧
      ∃ out, smoothBezierCurve [⟨0, 0, 0⟩, ⟨1, 2, 3⟩, ⟨2, 1, 0⟩] 4 = some out ∧
        out.length = 4 :=
  ⟨by decide, by decide,
    (smooth_count [⟨0, 0, 0⟩, ⟨1, 2, 3⟩, ⟨2, 1, 0⟩] 4).2 (by decide) (by decide)⟩

/-- C10: for an input with at least 2 points and at least 2 requested
segments, the smoothed curve preserves both endpoints: the first output
point equals the first input point and the last output point equals the
last input point. -/
theorem smooth_endpoints (raw : List Point) (segments : ℕ) (out : List Point)
    (h2 : 2 ≤ raw.length) (hs : 2 ≤ segments)
    (h : smoothBezierCurve raw segments = some out) :
    out.head? = raw.head? ∧ out.getLast? = raw.getLast? := by
  have hnot : ¬raw.length < 2 := by omega
  unfold smoothBezierCurve at h
  rw [if_neg hnot] at h
  have hlen := optionMapList_length _ _ _ h
  rw [List.length_range] at hlen
  have h0out : 0 < out.length := by omega
  have h0raw : 0 < raw.length := by omega
  have hlraw : raw.length - 1 < raw.length := by omega
  have hlout : out.length - 1 < out.length := by omega
  constructor
  · have hg := optionMapList_get _ _ _ h 0 (by rw [List.length_range]; omega) h0out
    rw [List.get_range] at hg
    rw [smoothPoint_zero raw segments h2 hs h0raw] at hg
    rw [head?_eq_get out h0out, head?_eq_get raw h0raw]
    exact hg.symm
  · have hg := optionMapList_get _ _ _ h (segments - 1) (by rw [List.length_range]; omega)
      (by omega)
    rw [List.get_range] at hg
    rw [smoothPoint_last raw segments h2 hs hlraw] at hg
    rw [getLast?_eq_get out hlout, getLast?_eq_get raw hlraw]
    have hidx : out.length - 1 = segments - 1 := by omega
    simp only [hidx]
    exact hg.symm

/-- C10 witness: at a concrete two-point input and 2 segments the
smoothing succeeds and the theorem applies, giving equal endpoints. -/
theorem smooth_endpoints_witness :
    2 ≤ ([⟨0, 0, 0⟩, ⟨1, 0, 0⟩] : List Point).length ∧ (2 : ℕ) ≤ 2 ∧
      ∃ out, smoothBezierCurve [⟨0, 0, 0⟩, ⟨1, 0, 0⟩] 2 = some out ∧
        out.head? = ([⟨0, 0, 0⟩, ⟨1, 0, 0⟩] : List Point).head? ∧
        out.getLast? = ([⟨0, 0, 0⟩, ⟨1, 0, 0⟩] : List Point).getLast? := by
  refine ⟨by decide, by decide, ?_⟩
  have hall : ∀ a ∈ List.range 2, ∃ b, smoothPoint [⟨0, 0, 0⟩, ⟨1, 0, 0⟩] 2 a = some b := by
    intro a ha
    rw [List.mem_range] at ha
    exact smoothPoint_isSome [⟨0, 0, 0⟩, ⟨1, 0, 0⟩] 2 a (by decide) (by decide) ha
  obtain ⟨out, hout⟩ := optionMapList_isSome (smoothPoint [⟨0, 0, 0⟩, ⟨1, 0, 0⟩] 2)
    (List.range 2) hall
  have hsm : smoothBezierCurve [⟨0, 0, 0⟩, ⟨1, 0, 0⟩] 2 = some out := by
    unfold smoothBezierCurve
    rw [if_neg (by simp)]
    exact hout
  obtain ⟨hh, hl⟩ := smooth_endpoints [⟨0, 0, 0⟩, ⟨1, 0, 0⟩] 2 out (by decide) (by decide) hsm
  exact ⟨out, hsm, hh, hl⟩

end TruArc
